import Mathlib

/-!
Verification of the miniature assignment-language interpreter
(`Assignment.py`): lexer, recursive-descent parser, and tree-walking
evaluator with a session-wide variable store.

The Python program is shallowly embedded: the input text is a `List Char`,
tokens and AST nodes are inductive types mirroring the Python classes,
the parser is a set of mutually recursive functions over a parser state
(current token plus remaining text) with an explicit fuel parameter for
termination, and the evaluator threads the variable store explicitly.
Python exceptions are modelled by an `Err` sum type; the store survives
an exception (it is global in the source), so the evaluator returns the
store alongside an `Except` result.
-/

namespace Assignment

/-- Token kinds. The Python source represents these as the string
constants INTEGER, PLUS, MINUS, MUL, DIV, DOT, '(' (OPEN_BRACE),
')' (CLOSE_BRACE), ID, ASSIGN, SEMI, EOF. -/
inductive TokType where
  | INTEGER
  | PLUS
  | MINUS
  | MUL
  | DIV
  | DOT
  | OPEN_BRACE
  | CLOSE_BRACE
  | ID
  | ASSIGN
  | SEMI
  | EOF
deriving DecidableEq, Repr

/-- Python values that can flow through this program: `None`, an
integer, or a string. Token payloads, evaluation results, and entries
of the variable store all live in this type. -/
inductive PyVal where
  | none
  | int (n : Int)
  | str (s : String)
deriving DecidableEq, Repr

/-- Python `repr` restricted to the values of `PyVal` (strings gain
single quotes). Used for the NameError message. -/
def pyRepr : PyVal → String
  | .none => "None"
  | .int n => toString n
  | .str s => "'" ++ s ++ "'"

/-- Python `str` restricted to the values of `PyVal`. Used when the
shell prints the store. -/
def pyStr : PyVal → String
  | .none => "None"
  | .int n => toString n
  | .str s => s

/-- Exceptions raised by the program.
`lexError` is `Lexer.error`, Python `Exception('Error')`;
`synError` is `Parser.error`, Python `Exception('Invalid Syntax')`
(the spec calls these LexError and SyntaxError);
`nameError s` is Python `NameError(s)` (the argument is
`repr(var_name)`);
`typeError` models Python `TypeError` from arithmetic on incompatible
values and `AttributeError` from a missing `.value` attribute
(unreachable for parser-produced trees);
`zeroDivisionError` models Python `ZeroDivisionError` from `//`
(unreachable: the lexer never emits a Div token);
`indexError` models the `IndexError` from constructing a `Lexer` on
empty text (unreachable through `main`, which skips empty lines);
`fuel` marks parser fuel exhaustion (never occurs for adequate fuel). -/
inductive Err where
  | lexError
  | synError
  | nameError (s : String)
  | typeError
  | zeroDivisionError
  | indexError
  | fuel
deriving DecidableEq, Repr

/-- A token: a kind together with its payload, as in class `Token`. -/
structure Token where
  type : TokType
  value : PyVal
deriving DecidableEq, Repr

/-- The variable store `Interpreter.VARIABLES`, a Python dict modelled
as an insertion-ordered association list from keys to values. -/
abbrev Store := List (PyVal × PyVal)

/-- Dict lookup distinguishing absence (`Option.none`) from a stored
value. -/
def storeGet : Store → PyVal → Option PyVal
  | [], _ => Option.none
  | (k', v) :: rest, k => if k' = k then some v else storeGet rest k

/-- Python `d.get(k)`: the stored value, or `None` when the key is
absent. -/
def dictGet (s : Store) (k : PyVal) : PyVal :=
  match storeGet s k with
  | some v => v
  | Option.none => .none

/-- Python `d[k] = v`: overwrite in place when the key is present
(keeping its position, as a Python dict does), else append. -/
def storeSet : Store → PyVal → PyVal → Store
  | [], k, v => [(k, v)]
  | (k', v') :: rest, k, v =>
      if k' = k then (k, v) :: rest else (k', v') :: storeSet rest k v

/-! ## Character classes

The source uses Python's `str.isspace`, `str.isalpha`, `str.isdigit`
and `str.isalnum`; they are modelled by the corresponding Lean `Char`
predicates (they agree on ASCII input, which is all the grammar
accepts). -/

def pyIsSpace (c : Char) : Bool := c.isWhitespace

def pyIsAlpha (c : Char) : Bool := c.isAlpha

def pyIsDigit (c : Char) : Bool := c.isDigit

def pyIsAlnum (c : Char) : Bool := c.isAlphanum

namespace Lexer

/-- Predicate for one character of an identifier continuation, from the
loop condition of `Lexer._id`: `current_char.isalnum() or current_char
== '_'` (the `is not None` conjunct is absorbed by list structure). -/
def isIdChar (c : Char) : Bool := pyIsAlnum c || c = '_'

/-- The regular expression `(0){1}|([1-9])\d*` of `Lexer.integer`,
applied with `fullmatch`: the whole run is `"0"`, or starts with a
nonzero digit followed by digits. -/
def literalFullmatch (cs : List Char) : Bool :=
  cs = ['0'] ||
    (match cs with
     | c :: rest => ('1' ≤ c && c ≤ '9') && rest.all pyIsDigit
     | [] => false)

/-- Python `int(result)` on a run of decimal digits. -/
def digitsVal (cs : List Char) : Int :=
  cs.foldl (fun a c => a * 10 + ((c.toNat : Int) - 48)) 0

/-- Method `Lexer.integer`: consume the maximal run of digits at the front of
the text; if the run fullmatches the literal regex, return its value
and the rest of the text, else raise (`Lexer.error`). -/
def integer (text : List Char) : Except Err (Int × List Char) :=
  let run := text.takeWhile pyIsDigit
  if literalFullmatch run then
    .ok (digitsVal run, text.dropWhile pyIsDigit)
  else
    .error .lexError

/-- Method `Lexer._id`: consume the maximal run of identifier characters and
build an ID token carrying the text. -/
def idToken (text : List Char) : Token × List Char :=
  (⟨.ID, .str (String.mk (text.takeWhile isIdChar))⟩,
   text.dropWhile isIdChar)

/-- Method `Lexer.get_next_token`: skip whitespace, then dispatch on the first
character; at end of text return an EOF token (and keep doing so).
Unrecognized characters raise (`Lexer.error`). -/
def get_next_token (text : List Char) : Except Err (Token × List Char) :=
  match text.dropWhile pyIsSpace with
  | [] => .ok (⟨.EOF, .none⟩, [])
  | c :: cs =>
      if pyIsAlpha c then
        .ok (idToken (c :: cs))
      else if pyIsDigit c then
        match integer (c :: cs) with
        | .ok (n, rest) => .ok (⟨.INTEGER, .int n⟩, rest)
        | .error e => .error e
      else if c = '=' then .ok (⟨.ASSIGN, .str "="⟩, cs)
      else if c = ';' then .ok (⟨.SEMI, .str ";"⟩, cs)
      else if c = '+' then .ok (⟨.PLUS, .str "+"⟩, cs)
      else if c = '-' then .ok (⟨.MINUS, .str "-"⟩, cs)
      else if c = '*' then .ok (⟨.MUL, .str "*"⟩, cs)
      else if c = '(' then .ok (⟨.OPEN_BRACE, .str "("⟩, cs)
      else if c = ')' then .ok (⟨.CLOSE_BRACE, .str ")"⟩, cs)
      else .error .lexError

end Lexer

/-- AST nodes, one constructor per `Operation` subclass of the source.
`Binary(left, op, right)`, `Numeric(token)`, `Unary(op, expr)`,
`Assign(left, op, right, semi)`, `Variable(token)`, `NoOp`.  The
Python fields are untyped, so every child is an `Operation`; the
parser only ever builds particular shapes (captured by `wfStmt`
below). -/
inductive Operation where
  | Binary (left : Operation) (op : Token) (right : Operation)
  | Numeric (token : Token)
  | Unary (op : Token) (expr : Operation)
  | Assign (left : Operation) (op : Token) (right : Operation) (semi : Token)
  | Variable (token : Token)
  | NoOp
deriving DecidableEq, Repr

/-- Python attribute `node.value`: present on `Numeric` and `Variable`
nodes only (`Option.none` models an AttributeError on the others). -/
def Operation.valueAttr : Operation → Option PyVal
  | .Numeric tok => some tok.value
  | .Variable tok => some tok.value
  | _ => Option.none

namespace Parser

/-- Parser state: the held current token plus the unconsumed text that
the lexer has not yet tokenized. -/
structure PState where
  current : Token
  rest : List Char
deriving DecidableEq, Repr

/-- Constructor `Parser.__init__`: fetch the first token.  The enclosing
`Lexer.__init__` indexes `text[0]`, so empty text raises IndexError. -/
def init (text : List Char) : Except Err PState :=
  match text with
  | [] => .error .indexError
  | _ =>
      match Lexer.get_next_token text with
      | .ok (tok, rest) => .ok ⟨tok, rest⟩
      | .error e => .error e

/-- Method `Parser.consume`: check the current token kind and advance, else
raise `Parser.error` (Python `Exception('Invalid Syntax')`). -/
def consume (tt : TokType) (st : PState) : Except Err PState :=
  if st.current.type = tt then
    match Lexer.get_next_token st.rest with
    | .ok (tok, rest) => .ok ⟨tok, rest⟩
    | .error e => .error e
  else
    .error .synError

/-- Python `tt in (MUL)` from `Parser.term`: `(MUL)` is just the
string MUL, so this is substring containment of the token-kind string
in the string MUL.  Of the twelve token-kind strings (INTEGER, PLUS,
MINUS, MUL, DIV, DOT, the two parenthesis characters, ID, ASSIGN,
SEMI, EOF) only MUL itself is a substring of MUL. -/
def inMulStr (tt : TokType) : Bool := tt = .MUL

/-- Python `tt in ASSIGN` from `Parser.execute`: substring containment
of the token-kind string in the string ASSIGN.  Of the twelve
token-kind strings only ASSIGN itself is a substring of ASSIGN. -/
def inAssignStr (tt : TokType) : Bool := tt = .ASSIGN

/-- Method `Parser.variable`: wrap the current token in a `Variable` node and
consume an ID. -/
def variableNode (st : PState) : Except Err (Operation × PState) :=
  match consume .ID st with
  | .ok st' => .ok (.Variable st.current, st')
  | .error e => .error e

mutual

/-- Method `Parser.factor`: unary sign, integer literal, parenthesized
expression, or (in the fall-through branch) a variable. -/
def factor : Nat → PState → Except Err (Operation × PState)
  | 0, _ => .error .fuel
  | f + 1, st =>
      let token := st.current
      if token.type = .PLUS then
        match consume .PLUS st with
        | .ok st1 =>
            match factor f st1 with
            | .ok (n, st2) => .ok (.Unary token n, st2)
            | .error e => .error e
        | .error e => .error e
      else if token.type = .MINUS then
        match consume .MINUS st with
        | .ok st1 =>
            match factor f st1 with
            | .ok (n, st2) => .ok (.Unary token n, st2)
            | .error e => .error e
        | .error e => .error e
      else if token.type = .INTEGER then
        match consume .INTEGER st with
        | .ok st1 => .ok (.Numeric token, st1)
        | .error e => .error e
      else if token.type = .OPEN_BRACE then
        match consume .OPEN_BRACE st with
        | .ok st1 =>
            match expr f st1 with
            | .ok (n, st2) =>
                match consume .CLOSE_BRACE st2 with
                | .ok st3 => .ok (n, st3)
                | .error e => .error e
            | .error e => .error e
        | .error e => .error e
      else
        variableNode st

/-- Loop of `Parser.term`: `while current.type in (MUL)`. -/
def termLoop : Nat → Operation → PState → Except Err (Operation × PState)
  | 0, _, _ => .error .fuel
  | f + 1, node, st =>
      if inMulStr st.current.type then
        let token := st.current
        match (if token.type = .MUL then consume .MUL st else .ok st) with
        | .ok st1 =>
            match factor f st1 with
            | .ok (rhs, st2) => termLoop f (.Binary node token rhs) st2
            | .error e => .error e
        | .error e => .error e
      else
        .ok (node, st)

/-- Method `Parser.term`: a factor followed by the MUL chain. -/
def term : Nat → PState → Except Err (Operation × PState)
  | 0, _ => .error .fuel
  | f + 1, st =>
      match factor f st with
      | .ok (n, st1) => termLoop f n st1
      | .error e => .error e

/-- Loop of `Parser.expr`: `while current.type in (PLUS, MINUS)` (a
genuine tuple, hence equality with either kind). -/
def exprLoop : Nat → Operation → PState → Except Err (Operation × PState)
  | 0, _, _ => .error .fuel
  | f + 1, node, st =>
      if st.current.type = .PLUS || st.current.type = .MINUS then
        let token := st.current
        match
          (if token.type = .PLUS then consume .PLUS st
           else if token.type = .MINUS then consume .MINUS st
           else .ok st) with
        | .ok st1 =>
            match term f st1 with
            | .ok (rhs, st2) => exprLoop f (.Binary node token rhs) st2
            | .error e => .error e
        | .error e => .error e
      else
        .ok (node, st)

/-- Method `Parser.expr`: a term followed by the PLUS/MINUS chain. -/
def expr : Nat → PState → Except Err (Operation × PState)
  | 0, _ => .error .fuel
  | f + 1, st =>
      match term f st with
      | .ok (n, st1) => exprLoop f n st1
      | .error e => .error e

/-- Method `Parser.assignment_statement`: `variable '=' expr ';'`. -/
def assignment_statement : Nat → PState → Except Err (Operation × PState)
  | 0, _ => .error .fuel
  | f + 1, st =>
      match variableNode st with
      | .ok (left, st1) =>
          let token := st1.current
          match consume .ASSIGN st1 with
          | .ok st2 =>
              match expr f st2 with
              | .ok (right, st3) =>
                  let semi := st3.current
                  match consume .SEMI st3 with
                  | .ok st4 => .ok (.Assign left token right semi, st4)
                  | .error e => .error e
              | .error e => .error e
          | .error e => .error e
      | .error e => .error e

/-- Chain loop of `Parser.execute`: `while current.type in ASSIGN`.
When the body runs the current token kind is ASSIGN, and the body
starts with `consume(DOT)`, which therefore always raises. -/
def executeLoop : Nat → Operation → PState → Except Err (Operation × PState)
  | 0, _, _ => .error .fuel
  | f + 1, node, st =>
      if inAssignStr st.current.type then
        let token := st.current
        match (if token.type = .ASSIGN then consume .DOT st else .ok st) with
        | .ok st1 =>
            match assignment_statement f st1 with
            | .ok (rhs, st2) => executeLoop f (.Binary node token rhs) st2
            | .error e => .error e
        | .error e => .error e
      else
        .ok (node, st)

/-- Method `Parser.execute`: one assignment statement, then the chain loop. -/
def execute : Nat → PState → Except Err (Operation × PState)
  | 0, _ => .error .fuel
  | f + 1, st =>
      match assignment_statement f st with
      | .ok (node, st1) => executeLoop f node st1
      | .error e => .error e

end

/-- Method `Parser.parse`: run `execute`, then require the current token to
be EOF, else raise `Parser.error`. -/
def parse (f : Nat) (st : PState) : Except Err Operation :=
  match execute f st with
  | .ok (node, st1) =>
      if st1.current.type ≠ .EOF then .error .synError else .ok node
  | .error e => .error e

/-- Instrumented copy of `executeLoop` whose Boolean records whether
the loop body was entered at least once.  Identical control flow to
`executeLoop` otherwise. -/
def executeLoopInstr : Nat → Operation → PState →
    (Except Err (Operation × PState)) × Bool
  | 0, _, _ => (.error .fuel, false)
  | f + 1, node, st =>
      if inAssignStr st.current.type then
        let token := st.current
        match (if token.type = .ASSIGN then consume .DOT st else .ok st) with
        | .ok st1 =>
            match assignment_statement f st1 with
            | .ok (rhs, st2) =>
                ((executeLoopInstr f (.Binary node token rhs) st2).1, true)
            | .error e => (.error e, true)
        | .error e => (.error e, true)
      else
        (.ok (node, st), false)

/-- Instrumented copy of `execute` built on `executeLoopInstr`. -/
def executeInstr (f : Nat) (st : PState) :
    (Except Err (Operation × PState)) × Bool :=
  match f with
  | 0 => (.error .fuel, false)
  | f + 1 =>
      match assignment_statement f st with
      | .ok (node, st1) => executeLoopInstr f node st1
      | .error e => (.error e, false)

end Parser

/-- Default parser fuel for a given line of text: generous bound on the
recursion depth of the descent (each nesting level consumes input). -/
def fuelFor (text : String) : Nat := 4 * text.length + 16

/-- Lex and parse one line of text. -/
def parseText (f : Nat) (text : String) : Except Err Operation :=
  match Parser.init text.toList with
  | .ok st => Parser.parse f st
  | .error e => .error e

/-- Run of `Parser.parse` on one line of text together with the
instrumentation flag of the chain loop of `Parser.execute`. -/
def parseTextInstr (text : String) : (Except Err Operation) × Bool :=
  match Parser.init text.toList with
  | .ok st =>
      match Parser.executeInstr (fuelFor text) st with
      | (.ok (node, st1), b) =>
          (if st1.current.type ≠ .EOF then .error .synError else .ok node, b)
      | (.error e, b) => (.error e, b)
  | .error e => (.error e, false)

namespace Interpreter

/-- Python `+` on program values: integer addition, string
concatenation, otherwise TypeError. -/
def pyAdd : PyVal → PyVal → Except Err PyVal
  | .int a, .int b => .ok (.int (a + b))
  | .str a, .str b => .ok (.str (a ++ b))
  | _, _ => .error .typeError

/-- Python binary `-` on program values. -/
def pySub : PyVal → PyVal → Except Err PyVal
  | .int a, .int b => .ok (.int (a - b))
  | _, _ => .error .typeError

/-- Python `*` on program values (including string repetition). -/
def pyMul : PyVal → PyVal → Except Err PyVal
  | .int a, .int b => .ok (.int (a * b))
  | .str a, .int n => .ok (.str (String.join (List.replicate n.toNat a)))
  | .int n, .str a => .ok (.str (String.join (List.replicate n.toNat a)))
  | _, _ => .error .typeError

/-- Python `//` on program values: floor division, raising
ZeroDivisionError on a zero divisor. -/
def pyFloorDiv : PyVal → PyVal → Except Err PyVal
  | .int a, .int b =>
      if b = 0 then .error .zeroDivisionError else .ok (.int (Int.fdiv a b))
  | _, _ => .error .typeError

/-- Python unary `+` on program values. -/
def pyPos : PyVal → Except Err PyVal
  | .int a => .ok (.int a)
  | _ => .error .typeError

/-- Python unary `-` on program values. -/
def pyNeg : PyVal → Except Err PyVal
  | .int a => .ok (.int (-a))
  | _ => .error .typeError

/-- Method `Interpreter.visit` and its `visit_*` methods: evaluate a node
against the store, returning the result (or the raised exception)
together with the store as it stands afterwards (the store is global
in the source, so writes that happened before an exception survive).

  * `visit_Binary` dispatches on the operator kind; an operator kind
    outside PLUS/MINUS/MUL/DIV falls off the if-chain and returns
    `None` without visiting the children.
  * `visit_Numeric` returns `node.value` (the token payload).
  * `visit_Unary` applies the sign; any other operator kind falls
    through to `None` without visiting the operand.
  * `visit_Assign` reads `node.left.value` (AttributeError when the
    attribute is missing), evaluates the right-hand side, writes the
    store, and returns `None` (the Python method has no return).
  * `visit_Variable` looks the payload up with `.get` and raises
    `NameError(repr(name))` when the result is `None`.
  * `visit_NoOp` returns `None`. -/
def visit : Operation → Store → (Except Err PyVal) × Store
  | .Binary l op r, s =>
      if op.type = .PLUS then
        match visit l s with
        | (.ok a, s1) =>
            match visit r s1 with
            | (.ok b, s2) => (pyAdd a b, s2)
            | (.error e, s2) => (.error e, s2)
        | (.error e, s1) => (.error e, s1)
      else if op.type = .MINUS then
        match visit l s with
        | (.ok a, s1) =>
            match visit r s1 with
            | (.ok b, s2) => (pySub a b, s2)
            | (.error e, s2) => (.error e, s2)
        | (.error e, s1) => (.error e, s1)
      else if op.type = .MUL then
        match visit l s with
        | (.ok a, s1) =>
            match visit r s1 with
            | (.ok b, s2) => (pyMul a b, s2)
            | (.error e, s2) => (.error e, s2)
        | (.error e, s1) => (.error e, s1)
      else if op.type = .DIV then
        match visit l s with
        | (.ok a, s1) =>
            match visit r s1 with
            | (.ok b, s2) => (pyFloorDiv a b, s2)
            | (.error e, s2) => (.error e, s2)
        | (.error e, s1) => (.error e, s1)
      else
        (.ok .none, s)
  | .Numeric tok, s => (.ok tok.value, s)
  | .Unary op e, s =>
      if op.type = .PLUS then
        match visit e s with
        | (.ok v, s1) => (pyPos v, s1)
        | (.error e', s1) => (.error e', s1)
      else if op.type = .MINUS then
        match visit e s with
        | (.ok v, s1) => (pyNeg v, s1)
        | (.error e', s1) => (.error e', s1)
      else
        (.ok .none, s)
  | .Assign left _ right _, s =>
      match left.valueAttr with
      | some key =>
          match visit right s with
          | (.ok v, s1) => (.ok .none, storeSet s1 key v)
          | (.error e, s1) => (.error e, s1)
      | Option.none => (.error .typeError, s)
  | .Variable tok, s =>
      let val := dictGet s tok.value
      if val = .none then (.error (.nameError (pyRepr tok.value)), s)
      else (.ok val, s)
  | .NoOp, s => (.ok .none, s)

end Interpreter

/-- One shell line: construct the interpreter (lexing the first token),
parse, and evaluate against the given store, as `Interpreter.interpret`
does.  (`interpret` has a dead branch returning an empty string when
the tree is `None`; `parse` always returns a node or raises, so it is
not modelled.)  Exceptions leave the store as it stood when they were
raised. -/
def interpretLine (text : String) (s : Store) : (Except Err PyVal) × Store :=
  match parseText (fuelFor text) text with
  | .ok tree => Interpreter.visit tree s
  | .error e => (.error e, s)

/-- The store printout of `main`: one line `key = value` per entry in
iteration (= insertion) order. -/
def printStore (s : Store) : List String :=
  s.map fun kv => pyStr kv.1 ++ " = " ++ pyStr kv.2

/-- The read-eval-print loop of `main`, on a finite list of input
lines (the list end models EOF).  Empty lines are skipped (`if not
text: continue`).  The try/except in the source wraps the whole
`while` loop, so the first line that raises prints the single line
`error` and ends the session, dropping all remaining input. -/
def mainLoop : List String → Store → Store × List String
  | [], s => (s, [])
  | line :: rest, s =>
      if line = "" then mainLoop rest s
      else
        match interpretLine line s with
        | (.ok _, s') =>
            let (sFin, out) := mainLoop rest s'
            (sFin, printStore s' ++ out)
        | (.error _, s') => (s', ["error"])

/-! ## Store lemmas -/

theorem storeGet_storeSet_self (s : Store) (k v : PyVal) :
    storeGet (storeSet s k v) k = some v := by
  induction s with
  | nil => simp [storeSet, storeGet]
  | cons kv rest ih =>
      obtain ⟨k', v'⟩ := kv
      by_cases h : k' = k
      · simp [storeSet, storeGet, h]
      · simp [storeSet, storeGet, h, ih]

theorem dictGet_storeSet_self (s : Store) (k v : PyVal) :
    dictGet (storeSet s k v) k = v := by
  simp [dictGet, storeGet_storeSet_self]

/-! ## Claim C1 -/

/-- Claim C1, counterexample: evaluating `x = 11;` stores 11 under
`x`, but the statement's result is Python `None`, not the stored
value 11 — refuting "returns that stored value as the statement's
result" (`visit_Assign` has no return statement). -/
theorem assign_result_is_none_not_value :
    interpretLine "x = 11;" [] =
      (.ok .none, [(.str "x", .int 11)]) ∧
    dictGet [(PyVal.str "x", PyVal.int 11)] (.str "x") = .int 11 ∧
    (Except.ok PyVal.none : Except Err PyVal) ≠ .ok (.int 11) :=
  ⟨rfl, rfl, by simp⟩

/-- Claim C1, amended: evaluating an Assignment node evaluates the
right-hand side, stores the result under the target's name in the
shared store (overwriting any prior binding), and returns Python
`None` (not the stored value) as the statement's result. -/
theorem assign_stores_value_result_none
    (ltok op semi : Token) (e : Operation) (s s₂ : Store) (v : PyVal)
    (he : Interpreter.visit e s = (.ok v, s₂)) :
    Interpreter.visit (.Assign (.Variable ltok) op e semi) s
      = (.ok .none, storeSet s₂ ltok.value v) ∧
    dictGet (storeSet s₂ ltok.value v) ltok.value = v := by
  refine ⟨?_, dictGet_storeSet_self ..⟩
  simp [Interpreter.visit, Operation.valueAttr, he]

/-- Concrete instantiation of `assign_stores_value_result_none`:
assigning 11 to `x` over a store where `x` was previously 5. -/
theorem assign_stores_value_result_none_witness :
    Interpreter.visit
        (.Assign (.Variable ⟨.ID, .str "x"⟩) ⟨.ASSIGN, .str "="⟩
          (.Numeric ⟨.INTEGER, .int 11⟩) ⟨.SEMI, .str ";"⟩)
        [(.str "x", .int 5)]
      = (.ok .none, [(.str "x", .int 11)]) ∧
    dictGet [(PyVal.str "x", PyVal.int 11)] (.str "x") = .int 11 := by
  have h := assign_stores_value_result_none
    ⟨.ID, .str "x"⟩ ⟨.ASSIGN, .str "="⟩ ⟨.SEMI, .str ";"⟩
    (.Numeric ⟨.INTEGER, .int 11⟩) [(.str "x", .int 5)]
    [(.str "x", .int 5)] (.int 11) rfl
  simpa [storeSet] using h

/-! ## Claim C3 -/

/-- Claim C3 (confirmed): multiplication binds tighter than addition
and parentheses override precedence: `x = 3 + 4 * 2;` binds `x` to 11
and `x = (3 + 4) * 2;` binds `x` to 14. -/
theorem precedence_mul_over_add_and_parens :
    interpretLine "x = 3 + 4 * 2;" [] =
      (.ok .none, [(.str "x", .int 11)]) ∧
    interpretLine "x = (3 + 4) * 2;" [] =
      (.ok .none, [(.str "x", .int 14)]) :=
  ⟨rfl, rfl⟩

/-! ## Claim C8 -/

/-- Claim C8 (code bug): in the session `x = 1;` / `y = z + 1;` /
`w = 2;` the failing second line makes the shell print the generic
indicator `error` and then terminate — the third line is never
processed (`w` stays unbound), because the try/except of `main` wraps
the whole read loop.  The store does keep the assignment completed
before the error. -/
theorem failed_line_terminates_session :
    mainLoop ["x = 1;", "y = z + 1;", "w = 2;"] [] =
      ([(.str "x", .int 1)], ["x = 1", "error"]) ∧
    interpretLine "y = z + 1;" [(.str "x", .int 1)] =
      (.error (.nameError "'z'"), [(.str "x", .int 1)]) ∧
    storeGet [(PyVal.str "x", PyVal.int 1)] (.str "w") = Option.none :=
  ⟨rfl, rfl, rfl⟩

/-! ## Claim C9 -/

/-- Claim C9, counterexample: processing `x = 1; x = 2;` as one input
line fails (the parser stops after one statement and the trailing
second statement trips the end-of-input check before anything is
evaluated), so the store afterwards holds no binding for `x` at all,
contradicting "the variable store maps x to 2". -/
theorem chained_input_single_line_is_error :
    mainLoop ["x = 1; x = 2;"] [] = ([], ["error"]) ∧
    interpretLine "x = 1; x = 2;" [] = (.error .synError, []) ∧
    storeGet ([] : Store) (.str "x") = Option.none :=
  ⟨rfl, rfl, rfl⟩

/-- Claim C9, amended: submitting `x = 1;` and `x = 2;` as two
separate input lines re-assigns the same name and overwrites the
stored value: the final store is exactly `[(x, 2)]` — it maps `x` to 2
and holds no other binding. -/
theorem reassignment_overwrites_across_lines :
    mainLoop ["x = 1;", "x = 2;"] [] =
      ([(.str "x", .int 2)], ["x = 1", "x = 2"]) :=
  rfl

/-! ## Claim C2 -/

/-- Claim C2 (confirmed): a successfully evaluated assignment leaves
the store mapping the target name to the integer value of the
right-hand side, and a later reference to that name (a `Variable`
node with the same payload, as produced by a fresh lexer/parser over
the same store) evaluates to that value; concretely, the session
`x = 11;` then `y = x + 1;` ends with `y` bound to 12. -/
theorem assignment_binds_and_later_ref_resolves
    (ltok atok semi vtok : Token) (e : Operation) (s s₂ : Store) (n : Int)
    (hname : vtok.value = ltok.value)
    (he : Interpreter.visit e s = (.ok (.int n), s₂)) :
    Interpreter.visit (.Assign (.Variable ltok) atok e semi) s
      = (.ok .none, storeSet s₂ ltok.value (.int n)) ∧
    Interpreter.visit (.Variable vtok) (storeSet s₂ ltok.value (.int n))
      = (.ok (.int n), storeSet s₂ ltok.value (.int n)) ∧
    (mainLoop ["x = 11;", "y = x + 1;"] []).1
      = [(.str "x", .int 11), (.str "y", .int 12)] := by
  refine ⟨?_, ?_, rfl⟩
  · simp [Interpreter.visit, Operation.valueAttr, he]
  · simp [Interpreter.visit, hname, dictGet_storeSet_self]

/-- Concrete instantiation of
`assignment_binds_and_later_ref_resolves`: assigning 11 to `x` and
reading `x` back. -/
theorem assignment_binds_and_later_ref_resolves_witness :
    Interpreter.visit
        (.Assign (.Variable ⟨.ID, .str "x"⟩) ⟨.ASSIGN, .str "="⟩
          (.Numeric ⟨.INTEGER, .int 11⟩) ⟨.SEMI, .str ";"⟩) []
      = (.ok .none, [(.str "x", .int 11)]) ∧
    Interpreter.visit (.Variable ⟨.ID, .str "x"⟩) [(.str "x", .int 11)]
      = (.ok (.int 11), [(.str "x", .int 11)]) ∧
    (mainLoop ["x = 11;", "y = x + 1;"] []).1
      = [(.str "x", .int 11), (.str "y", .int 12)] := by
  have h := assignment_binds_and_later_ref_resolves
    ⟨.ID, .str "x"⟩ ⟨.ASSIGN, .str "="⟩ ⟨.SEMI, .str ";"⟩ ⟨.ID, .str "x"⟩
    (.Numeric ⟨.INTEGER, .int 11⟩) [] [] 11 rfl rfl
  simpa [storeSet] using h

/-! ## Claim C5 -/

/-- Claim C5 (confirmed): evaluating a `Variable` node whose name is
absent from the store fails with NameError (carrying `repr` of the
name) and substitutes no default value; concretely `y = z + 1;` with
no binding for `z` fails with NameError. -/
theorem undefined_variable_raises_nameerror
    (tok : Token) (s : Store)
    (habs : storeGet s tok.value = Option.none) :
    Interpreter.visit (.Variable tok) s
      = (.error (.nameError (pyRepr tok.value)), s) ∧
    interpretLine "y = z + 1;" [] = (.error (.nameError "'z'"), []) := by
  refine ⟨?_, rfl⟩
  simp [Interpreter.visit, dictGet, habs]

/-- Concrete instantiation of `undefined_variable_raises_nameerror`:
reading `z` from a store that only binds `x`. -/
theorem undefined_variable_raises_nameerror_witness :
    Interpreter.visit (.Variable ⟨.ID, .str "z"⟩) [(.str "x", .int 11)]
      = (.error (.nameError "'z'"), [(.str "x", .int 11)]) ∧
    interpretLine "y = z + 1;" [] = (.error (.nameError "'z'"), []) := by
  have h := undefined_variable_raises_nameerror
    ⟨.ID, .str "z"⟩ [(.str "x", .int 11)] rfl
  simpa [pyRepr] using h

/-! ## Claim C6 -/

/-- When the chain loop of `Parser.execute` succeeds it contributes
nothing: whenever its guard holds the current token kind is ASSIGN,
so the body's `consume(DOT)` raises at once.  Hence a successful
`executeLoop` returns its input node and state unchanged. -/
theorem executeLoop_ok_eq (f : Nat) (node : Operation) (st : Parser.PState)
    (r : Operation) (st' : Parser.PState)
    (h : Parser.executeLoop f node st = .ok (r, st')) : r = node ∧ st' = st := by
  match f with
  | 0 => simp [Parser.executeLoop] at h
  | f + 1 =>
    by_cases hc : st.current.type = .ASSIGN
    · simp [Parser.executeLoop, Parser.inAssignStr, Parser.consume, hc] at h
    · simp [Parser.executeLoop, Parser.inAssignStr, hc] at h
      exact ⟨h.1.symm, h.2.symm⟩

/-- Claim C6, counterexample: for the input `x = 1;=` the chain loop
of `Parser.execute` does execute its body after the well-formed
statement `x = 1;` (the instrumentation flag is `true` — the token
after the semicolon is `=`, whose kind ASSIGN satisfies the substring
guard), refuting "the chaining loop in the program rule never
executes its body after a well-formed statement".  (The parse still
fails, at the body's `consume(DOT)`.)  For `x = 1;` alone the body
does not run. -/
theorem chain_loop_body_reachable :
    parseTextInstr "x = 1;=" = (.error .synError, true) ∧
    (parseTextInstr "x = 1;").2 = false :=
  ⟨rfl, rfl⟩

/-- Claim C6, amended: the parser completes exactly one
`assignment_stmt` per input — the chain loop never completes a second
statement, since on success it returns its input unchanged (entering
its body always raises at `consume(DOT)`) — and then requires the
current token to be EndOfInput, failing with SyntaxError on any
trailing input after the complete statement.  (The loop body can
briefly execute when the trailing token is `=`, but then fails
immediately, so no second statement is ever parsed.) -/
theorem single_statement_then_eof :
    (∀ f node st r st',
        Parser.executeLoop f node st = .ok (r, st') → r = node ∧ st' = st) ∧
    (∀ f st node st', Parser.execute (f + 1) st = .ok (node, st') →
        Parser.assignment_statement f st = .ok (node, st')) ∧
    (∀ f st node st', Parser.execute f st = .ok (node, st') →
        st'.current.type ≠ .EOF → Parser.parse f st = .error .synError) ∧
    (∀ f st node, Parser.parse f st = .ok node →
        ∃ st', Parser.execute f st = .ok (node, st') ∧
          st'.current.type = .EOF) := by
  refine ⟨executeLoop_ok_eq, ?_, ?_, ?_⟩
  · intro f st node st' h
    simp only [Parser.execute] at h
    cases has : Parser.assignment_statement f st with
    | ok p =>
        obtain ⟨node0, st1⟩ := p
        rw [has] at h
        obtain ⟨rfl, rfl⟩ := executeLoop_ok_eq f node0 st1 node st' h
        rfl
    | error e => rw [has] at h; cases h
  · intro f st node st' h hne
    simp [Parser.parse, h, hne]
  · intro f st node h
    simp only [Parser.parse] at h
    cases hex : Parser.execute f st with
    | ok p =>
        obtain ⟨node0, st1⟩ := p
        rw [hex] at h
        by_cases he : st1.current.type = .EOF
        · simp [he] at h
          exact ⟨st1, by rw [h], he⟩
        · simp [he] at h
    | error e => rw [hex] at h; cases h

/-! ## Claim C4 -/

/-- A digit character is not whitespace. -/
theorem digit_not_space (c : Char) (h : pyIsDigit c = true) :
    pyIsSpace c = false := by
  simp [pyIsDigit, Char.isDigit, UInt32.le_def, BitVec.le_def,
    UInt32.toNat] at h
  simp [pyIsSpace, Char.isWhitespace, Char.ext_iff, UInt32.ext_iff,
    BitVec.toNat_eq, UInt32.size, UInt32.toNat]
  omega

/-- A digit character is not alphabetic. -/
theorem digit_not_alpha (c : Char) (h : pyIsDigit c = true) :
    pyIsAlpha c = false := by
  simp [pyIsDigit, Char.isDigit, UInt32.le_def, BitVec.le_def] at h
  simp [pyIsAlpha, Char.isAlpha, Char.isUpper, Char.isLower,
    UInt32.le_def, BitVec.le_def]
  omega

/-- Splitting `takeWhile`/`dropWhile` around a maximal satisfying
run. -/
theorem takeWhile_dropWhile_maximal_run (p : Char → Bool)
    (run rest : List Char) (h2 : run.all p = true)
    (h3 : rest.head?.all (fun c => !p c) = true) :
    (run ++ rest).takeWhile p = run ∧ (run ++ rest).dropWhile p = rest := by
  induction run with
  | nil =>
      cases rest with
      | nil => simp
      | cons c cs =>
          simp at h3
          simp [List.takeWhile, List.dropWhile, h3]
  | cons c cs ih =>
      simp only [List.all_cons, Bool.and_eq_true] at h2
      have := ih h2.2
      simp [List.takeWhile, List.dropWhile, h2.1, this.1, this.2]

/-- Claim C4 (confirmed): a maximal run of digits consumed by the
lexer is accepted — as an INTEGER token carrying the run's decimal
value — precisely when the run fullmatches the literal pattern, which
holds iff the run is exactly `0` or starts with a nonzero digit (the
form `[1-9][0-9]*`); otherwise the lexer raises its LexError. -/
theorem integer_literal_lexing (run rest : List Char)
    (h1 : run ≠ []) (h2 : run.all pyIsDigit = true)
    (h3 : rest.head?.all (fun c => !pyIsDigit c) = true) :
    (Lexer.literalFullmatch run = true →
      Lexer.get_next_token (run ++ rest)
        = .ok (⟨.INTEGER, .int (Lexer.digitsVal run)⟩, rest)) ∧
    (Lexer.literalFullmatch run = false →
      Lexer.get_next_token (run ++ rest) = .error .lexError) ∧
    (Lexer.literalFullmatch run = true ↔
      run = ['0'] ∨ ∃ c cs, run = c :: cs ∧ '1' ≤ c ∧ c ≤ '9') := by
  obtain ⟨c, cs, rfl⟩ : ∃ c cs, run = c :: cs := by
    cases run with
    | nil => exact absurd rfl h1
    | cons c cs => exact ⟨c, cs, rfl⟩
  simp only [List.all_cons, Bool.and_eq_true] at h2
  obtain ⟨hcd, hcsd⟩ := h2
  have hsp := digit_not_space c hcd
  have hal := digit_not_alpha c hcd
  have hsplit := takeWhile_dropWhile_maximal_run pyIsDigit (c :: cs) rest
    (by simp only [List.all_cons, Bool.and_eq_true]; exact ⟨hcd, hcsd⟩) h3
  simp only [List.cons_append] at hsplit
  have hdrop : (c :: (cs ++ rest)).dropWhile pyIsSpace = c :: (cs ++ rest) := by
    simp [List.dropWhile, hsp]
  have hfmEq : Lexer.literalFullmatch (c :: cs)
      = (decide (c :: cs = ['0']) || (decide ('1' ≤ c) && decide (c ≤ '9'))) := by
    simp [Lexer.literalFullmatch, hcsd]
  constructor
  · intro hfm
    simp only [List.cons_append, Lexer.get_next_token, hdrop, hal, hcd,
      Lexer.integer, hsplit.1, hsplit.2, hfm]
    simp
  constructor
  · intro hfm
    simp only [List.cons_append, Lexer.get_next_token, hdrop, hal, hcd,
      Lexer.integer, hsplit.1, hsplit.2, hfm]
    simp
  · rw [hfmEq]
    simp only [Bool.or_eq_true, Bool.and_eq_true, decide_eq_true_eq]
    constructor
    · rintro (h | h)
      · exact Or.inl h
      · exact Or.inr ⟨c, cs, rfl, h.1, h.2⟩
    · rintro (h | ⟨d, ds, hd, hd1, hd2⟩)
      · exact Or.inl h
      · cases hd
        exact Or.inr ⟨hd1, hd2⟩

/-- Concrete instantiations of `integer_literal_lexing`: the literal
`007` fails lexing, and the literal `42` lexes to a single INTEGER
token of value 42. -/
theorem integer_literal_lexing_witness :
    Lexer.get_next_token ['0', '0', '7'] = .error .lexError ∧
    Lexer.get_next_token ['4', '2']
      = .ok (⟨.INTEGER, .int 42⟩, []) := by
  constructor
  · have h := (integer_literal_lexing ['0', '0', '7'] []
      (by simp) (by decide) (by simp)).2.1 (by decide)
    simpa using h
  · have h := (integer_literal_lexing ['4', '2'] []
      (by simp) (by decide) (by simp)).1 (by decide)
    simpa using h

/-! ## Tokens and trees produced by the lexer and parser

`goodToken` captures what the lexer can emit: INTEGER tokens carry an
integer payload, and the kinds DIV and DOT are never produced (no
input character maps to them).  `wfExpr`/`wfStmt` capture the tree
shapes `Parser.expr`/`Parser.assignment_statement` can build. -/

def goodToken (t : Token) : Bool :=
  match t.type with
  | .INTEGER => (match t.value with | .int _ => true | _ => false)
  | .DIV => false
  | .DOT => false
  | _ => true

def goodState (st : Parser.PState) : Bool := goodToken st.current

/-- Shape of trees returned by `Parser.expr`: binary operators are
PLUS, MINUS or MUL (never DIV), unary operators are PLUS or MINUS,
numeric leaves carry integers, and no `Assign`/`NoOp` occurs inside
an expression. -/
def wfExpr : Operation → Bool
  | .Binary l op r =>
      (op.type = .PLUS || op.type = .MINUS || op.type = .MUL)
        && wfExpr l && wfExpr r
  | .Numeric tok => (match tok.value with | .int _ => true | _ => false)
  | .Unary op e => (op.type = .PLUS || op.type = .MINUS) && wfExpr e
  | .Variable _ => true
  | _ => false

/-- Shape of trees returned by `Parser.assignment_statement` (and so
by `Parser.parse`): an `Assign` whose left child is a `Variable` and
whose right child is a well-formed expression. -/
def wfStmt : Operation → Bool
  | .Assign left _ right _ =>
      (match left with | .Variable _ => true | _ => false) && wfExpr right
  | _ => false

theorem get_next_token_good (text : List Char) (tok : Token)
    (rest : List Char)
    (h : Lexer.get_next_token text = .ok (tok, rest)) : goodToken tok = true := by
  simp only [Lexer.get_next_token] at h
  cases hd : text.dropWhile pyIsSpace with
  | nil =>
      simp only [hd] at h
      obtain ⟨rfl, rfl⟩ : (⟨.EOF, .none⟩ : Token) = tok ∧ ([] : List Char) = rest := by
        simpa using h
      rfl
  | cons c cs =>
      simp only [hd] at h
      by_cases h1 : pyIsAlpha c
      · simp only [if_pos h1] at h
        obtain heq : Lexer.idToken (c :: cs) = (tok, rest) := by
          simpa using h
        have : tok = (Lexer.idToken (c :: cs)).1 := by rw [heq]
        subst this
        rfl
      · simp only [if_neg h1] at h
        by_cases h2 : pyIsDigit c
        · simp only [if_pos h2] at h
          cases hi : Lexer.integer (c :: cs) with
          | ok p =>
              obtain ⟨nn, r⟩ := p
              simp only [hi] at h
              obtain ⟨rfl, rfl⟩ : (⟨.INTEGER, .int nn⟩ : Token) = tok ∧ r = rest := by
                simpa using h
              rfl
          | error e => simp [hi] at h
        · simp only [if_neg h2] at h
          by_cases h3 : c = '='
          · simp only [if_pos h3] at h
            obtain ⟨rfl, rfl⟩ : (⟨.ASSIGN, .str "="⟩ : Token) = tok ∧ cs = rest := by
              simpa using h
            rfl
          · simp only [if_neg h3] at h
            by_cases h4 : c = ';'
            · simp only [if_pos h4] at h
              obtain ⟨rfl, rfl⟩ : (⟨.SEMI, .str ";"⟩ : Token) = tok ∧ cs = rest := by
                simpa using h
              rfl
            · simp only [if_neg h4] at h
              by_cases h5 : c = '+'
              · simp only [if_pos h5] at h
                obtain ⟨rfl, rfl⟩ : (⟨.PLUS, .str "+"⟩ : Token) = tok ∧ cs = rest := by
                  simpa using h
                rfl
              · simp only [if_neg h5] at h
                by_cases h6 : c = '-'
                · simp only [if_pos h6] at h
                  obtain ⟨rfl, rfl⟩ : (⟨.MINUS, .str "-"⟩ : Token) = tok ∧ cs = rest := by
                    simpa using h
                  rfl
                · simp only [if_neg h6] at h
                  by_cases h7 : c = '*'
                  · simp only [if_pos h7] at h
                    obtain ⟨rfl, rfl⟩ : (⟨.MUL, .str "*"⟩ : Token) = tok ∧ cs = rest := by
                      simpa using h
                    rfl
                  · simp only [if_neg h7] at h
                    by_cases h8 : c = '('
                    · simp only [if_pos h8] at h
                      obtain ⟨rfl, rfl⟩ :
                          (⟨.OPEN_BRACE, .str "("⟩ : Token) = tok ∧ cs = rest := by
                        simpa using h
                      rfl
                    · simp only [if_neg h8] at h
                      by_cases h9 : c = ')'
                      · simp only [if_pos h9] at h
                        obtain ⟨rfl, rfl⟩ :
                            (⟨.CLOSE_BRACE, .str ")"⟩ : Token) = tok ∧ cs = rest := by
                          simpa using h
                        rfl
                      · simp [if_neg h9] at h

theorem consume_good (tt : TokType) (st st' : Parser.PState)
    (h : Parser.consume tt st = .ok st') : goodState st' = true := by
  simp only [Parser.consume] at h
  by_cases h1 : st.current.type = tt
  · simp only [if_pos h1] at h
    cases hg : Lexer.get_next_token st.rest with
    | ok p =>
        obtain ⟨tok, rest⟩ := p
        simp only [hg] at h
        obtain rfl : (⟨tok, rest⟩ : Parser.PState) = st' := by simpa using h
        exact get_next_token_good _ _ _ hg
    | error e => simp [hg] at h
  · simp [if_neg h1] at h

theorem consume_type (tt : TokType) (st st' : Parser.PState)
    (h : Parser.consume tt st = .ok st') : st.current.type = tt := by
  simp only [Parser.consume] at h
  by_cases h1 : st.current.type = tt
  · exact h1
  · simp [if_neg h1] at h

theorem init_good (text : List Char) (st : Parser.PState)
    (h : Parser.init text = .ok st) : goodState st = true := by
  simp only [Parser.init] at h
  cases text with
  | nil => cases h
  | cons c cs =>
      cases hg : Lexer.get_next_token (c :: cs) with
      | ok p =>
          obtain ⟨tok, rest⟩ := p
          simp only [hg] at h
          obtain rfl : (⟨tok, rest⟩ : Parser.PState) = st := by simpa using h
          exact get_next_token_good _ _ _ hg
      | error e => simp [hg] at h

theorem variableNode_wf (st : Parser.PState) (n : Operation)
    (st' : Parser.PState) (h : Parser.variableNode st = .ok (n, st')) :
    (∃ tok, n = .Variable tok) ∧ goodState st' = true := by
  simp only [Parser.variableNode] at h
  cases hc : Parser.consume .ID st with
  | ok st1 =>
      simp only [hc] at h
      obtain ⟨rfl, rfl⟩ : Operation.Variable st.current = n ∧ st1 = st' := by
        simpa using h
      exact ⟨⟨st.current, rfl⟩, consume_good _ _ _ hc⟩
  | error e => simp [hc] at h

/-- Joint induction over the parser fuel: from a good state, every
successful descent returns a well-formed tree and leaves a good
state. -/
theorem parser_wf (f : Nat) :
    (∀ st n st', goodState st = true → Parser.factor f st = .ok (n, st') →
        wfExpr n = true ∧ goodState st' = true) ∧
    (∀ node st n st', goodState st = true → wfExpr node = true →
        Parser.termLoop f node st = .ok (n, st') →
        wfExpr n = true ∧ goodState st' = true) ∧
    (∀ st n st', goodState st = true → Parser.term f st = .ok (n, st') →
        wfExpr n = true ∧ goodState st' = true) ∧
    (∀ node st n st', goodState st = true → wfExpr node = true →
        Parser.exprLoop f node st = .ok (n, st') →
        wfExpr n = true ∧ goodState st' = true) ∧
    (∀ st n st', goodState st = true → Parser.expr f st = .ok (n, st') →
        wfExpr n = true ∧ goodState st' = true) ∧
    (∀ st n st', goodState st = true →
        Parser.assignment_statement f st = .ok (n, st') →
        wfStmt n = true ∧ goodState st' = true) := by
  induction f with
  | zero =>
      refine ⟨?_, ?_, ?_, ?_, ?_, ?_⟩
      · intro st n st' _ h; simp [Parser.factor] at h
      · intro node st n st' _ _ h; simp [Parser.termLoop] at h
      · intro st n st' _ h; simp [Parser.term] at h
      · intro node st n st' _ _ h; simp [Parser.exprLoop] at h
      · intro st n st' _ h; simp [Parser.expr] at h
      · intro st n st' _ h; simp [Parser.assignment_statement] at h
  | succ f ih =>
      obtain ⟨ihFactor, ihTermLoop, ihTerm, ihExprLoop, ihExpr, ihAssign⟩ := ih
      have hFactor : ∀ st n st', goodState st = true →
          Parser.factor (f + 1) st = .ok (n, st') →
          wfExpr n = true ∧ goodState st' = true := by
        intro st n st' hgs h
        simp only [Parser.factor] at h
        by_cases h1 : st.current.type = .PLUS
        · simp only [if_pos h1] at h
          cases hc : Parser.consume .PLUS st with
          | error e => simp [hc] at h
          | ok st1 =>
              simp only [hc] at h
              cases hf : Parser.factor f st1 with
              | error e => simp [hf] at h
              | ok p =>
                  obtain ⟨n0, st2⟩ := p
                  simp only [hf] at h
                  obtain ⟨rfl, rfl⟩ :
                      Operation.Unary st.current n0 = n ∧ st2 = st' := by
                    simpa using h
                  obtain ⟨hw, hg⟩ := ihFactor st1 n0 st2 (consume_good _ _ _ hc) hf
                  exact ⟨by simp [wfExpr, h1, hw], hg⟩
        · simp only [if_neg h1] at h
          by_cases h2 : st.current.type = .MINUS
          · simp only [if_pos h2] at h
            cases hc : Parser.consume .MINUS st with
            | error e => simp [hc] at h
            | ok st1 =>
                simp only [hc] at h
                cases hf : Parser.factor f st1 with
                | error e => simp [hf] at h
                | ok p =>
                    obtain ⟨n0, st2⟩ := p
                    simp only [hf] at h
                    obtain ⟨rfl, rfl⟩ :
                        Operation.Unary st.current n0 = n ∧ st2 = st' := by
                      simpa using h
                    obtain ⟨hw, hg⟩ :=
                      ihFactor st1 n0 st2 (consume_good _ _ _ hc) hf
                    exact ⟨by simp [wfExpr, h2, hw], hg⟩
          · simp only [if_neg h2] at h
            by_cases h3 : st.current.type = .INTEGER
            · simp only [if_pos h3] at h
              cases hc : Parser.consume .INTEGER st with
              | error e => simp [hc] at h
              | ok st1 =>
                  simp only [hc] at h
                  obtain ⟨rfl, rfl⟩ :
                      Operation.Numeric st.current = n ∧ st1 = st' := by
                    simpa using h
                  refine ⟨?_, consume_good _ _ _ hc⟩
                  have hv := hgs
                  simp only [goodState, goodToken, h3] at hv
                  simpa [wfExpr] using hv
            · simp only [if_neg h3] at h
              by_cases h4 : st.current.type = .OPEN_BRACE
              · simp only [if_pos h4] at h
                cases hc : Parser.consume .OPEN_BRACE st with
                | error e => simp [hc] at h
                | ok st1 =>
                    simp only [hc] at h
                    cases he : Parser.expr f st1 with
                    | error e => simp [he] at h
                    | ok p =>
                        obtain ⟨n0, st2⟩ := p
                        simp only [he] at h
                        cases hc2 : Parser.consume .CLOSE_BRACE st2 with
                        | error e => simp [hc2] at h
                        | ok st3 =>
                            simp only [hc2] at h
                            obtain ⟨rfl, rfl⟩ : n0 = n ∧ st3 = st' := by
                              simpa using h
                            obtain ⟨hw, hg⟩ :=
                              ihExpr st1 n0 st2 (consume_good _ _ _ hc) he
                            exact ⟨hw, consume_good _ _ _ hc2⟩
              · simp only [if_neg h4] at h
                obtain ⟨⟨tok, rfl⟩, hg⟩ := variableNode_wf st n st' h
                exact ⟨rfl, hg⟩
      have hTermLoop : ∀ node st n st', goodState st = true →
          wfExpr node = true → Parser.termLoop (f + 1) node st = .ok (n, st') →
          wfExpr n = true ∧ goodState st' = true := by
        intro node st n st' hgs hwf h
        by_cases h1 : st.current.type = .MUL
        · simp only [Parser.termLoop] at h
          simp [Parser.inMulStr, h1] at h
          cases hc : Parser.consume .MUL st with
          | error e => simp [hc] at h
          | ok st1 =>
              simp only [hc] at h
              cases hf : Parser.factor f st1 with
              | error e => simp [hf] at h
              | ok p =>
                  obtain ⟨rhs, st2⟩ := p
                  simp only [hf] at h
                  obtain ⟨hwr, hg2⟩ :=
                    ihFactor st1 rhs st2 (consume_good _ _ _ hc) hf
                  exact ihTermLoop (.Binary node st.current rhs) st2 n st' hg2
                    (by simp [wfExpr, h1, hwf, hwr]) h
        · simp only [Parser.termLoop] at h
          simp [Parser.inMulStr, h1] at h
          obtain ⟨rfl, rfl⟩ := h
          exact ⟨hwf, hgs⟩
      have hTerm : ∀ st n st', goodState st = true →
          Parser.term (f + 1) st = .ok (n, st') →
          wfExpr n = true ∧ goodState st' = true := by
        intro st n st' hgs h
        simp only [Parser.term] at h
        cases hf : Parser.factor f st with
        | error e => simp [hf] at h
        | ok p =>
            obtain ⟨n0, st1⟩ := p
            simp only [hf] at h
            obtain ⟨hw, hg⟩ := ihFactor st n0 st1 hgs hf
            exact ihTermLoop n0 st1 n st' hg hw h
      have hExprLoop : ∀ node st n st', goodState st = true →
          wfExpr node = true → Parser.exprLoop (f + 1) node st = .ok (n, st') →
          wfExpr n = true ∧ goodState st' = true := by
        intro node st n st' hgs hwf h
        by_cases hp : st.current.type = .PLUS
        · simp only [Parser.exprLoop] at h
          simp [hp] at h
          cases hc : Parser.consume .PLUS st with
          | error e => simp [hc] at h
          | ok st1 =>
              simp only [hc] at h
              cases ht : Parser.term f st1 with
              | error e => simp [ht] at h
              | ok p =>
                  obtain ⟨rhs, st2⟩ := p
                  simp only [ht] at h
                  obtain ⟨hwr, hg2⟩ :=
                    ihTerm st1 rhs st2 (consume_good _ _ _ hc) ht
                  exact ihExprLoop (.Binary node st.current rhs) st2 n st' hg2
                    (by simp [wfExpr, hp, hwf, hwr]) h
        · by_cases hm : st.current.type = .MINUS
          · simp only [Parser.exprLoop] at h
            simp [hp, hm] at h
            cases hc : Parser.consume .MINUS st with
            | error e => simp [hc] at h
            | ok st1 =>
                simp only [hc] at h
                cases ht : Parser.term f st1 with
                | error e => simp [ht] at h
                | ok p =>
                    obtain ⟨rhs, st2⟩ := p
                    simp only [ht] at h
                    obtain ⟨hwr, hg2⟩ :=
                      ihTerm st1 rhs st2 (consume_good _ _ _ hc) ht
                    exact ihExprLoop (.Binary node st.current rhs) st2 n st'
                      hg2 (by simp [wfExpr, hm, hwf, hwr]) h
          · simp only [Parser.exprLoop] at h
            simp [hp, hm] at h
            obtain ⟨rfl, rfl⟩ := h
            exact ⟨hwf, hgs⟩
      have hExpr : ∀ st n st', goodState st = true →
          Parser.expr (f + 1) st = .ok (n, st') →
          wfExpr n = true ∧ goodState st' = true := by
        intro st n st' hgs h
        simp only [Parser.expr] at h
        cases ht : Parser.term f st with
        | error e => simp [ht] at h
        | ok p =>
            obtain ⟨n0, st1⟩ := p
            simp only [ht] at h
            obtain ⟨hw, hg⟩ := ihTerm st n0 st1 hgs ht
            exact ihExprLoop n0 st1 n st' hg hw h
      have hAssign : ∀ st n st', goodState st = true →
          Parser.assignment_statement (f + 1) st = .ok (n, st') →
          wfStmt n = true ∧ goodState st' = true := by
        intro st n st' hgs h
        simp only [Parser.assignment_statement] at h
        cases hv : Parser.variableNode st with
        | error e => simp [hv] at h
        | ok p =>
            obtain ⟨left, st1⟩ := p
            simp only [hv] at h
            cases hc : Parser.consume .ASSIGN st1 with
            | error e => simp [hc] at h
            | ok st2 =>
                simp only [hc] at h
                cases he : Parser.expr f st2 with
                | error e => simp [he] at h
                | ok p2 =>
                    obtain ⟨right, st3⟩ := p2
                    simp only [he] at h
                    cases hs : Parser.consume .SEMI st3 with
                    | error e => simp [hs] at h
                    | ok st4 =>
                        simp only [hs] at h
                        obtain ⟨rfl, rfl⟩ :
                            Operation.Assign left st1.current right st3.current
                              = n ∧ st4 = st' := by
                          simpa using h
                        obtain ⟨⟨tok, rfl⟩, _⟩ := variableNode_wf st left st1 hv
                        obtain ⟨hwr, _⟩ :=
                          ihExpr st2 right st3 (consume_good _ _ _ hc) he
                        exact ⟨by simp [wfStmt, hwr], consume_good _ _ _ hs⟩
      exact ⟨hFactor, hTermLoop, hTerm, hExprLoop, hExpr, hAssign⟩

/-- Trees returned by `Parser.parse` from a good state are well-formed
assignment statements. -/
theorem parse_wf (f : Nat) (st : Parser.PState) (tree : Operation)
    (hgs : goodState st = true) (h : Parser.parse f st = .ok tree) :
    wfStmt tree = true := by
  simp only [Parser.parse] at h
  cases hex : Parser.execute f st with
  | error e => simp [hex] at h
  | ok p =>
      obtain ⟨node, st1⟩ := p
      simp only [hex] at h
      by_cases he : st1.current.type = .EOF
      · simp only [he, ne_eq, not_true_eq_false, if_false, if_neg,
          not_false_eq_true] at h
        obtain rfl : node = tree := by simpa using h
        match f with
        | 0 => simp [Parser.execute] at hex
        | f + 1 =>
            simp only [Parser.execute] at hex
            cases has : Parser.assignment_statement f st with
            | error e => simp [has] at hex
            | ok p2 =>
                obtain ⟨n0, st0⟩ := p2
                simp only [has] at hex
                obtain ⟨rfl, rfl⟩ := executeLoop_ok_eq f n0 st0 node st1 hex
                exact ((parser_wf f).2.2.2.2.2 st node st1 hgs has).1
      · simp [he] at h

/-- Trees produced from raw text are well-formed assignment
statements. -/
theorem parseText_wf (f : Nat) (text : String) (tree : Operation)
    (h : parseText f text = .ok tree) : wfStmt tree = true := by
  simp only [parseText] at h
  cases hi : Parser.init text.toList with
  | error e => rw [hi] at h; exact absurd h (by simp)
  | ok st =>
      rw [hi] at h
      exact parse_wf f st tree (init_good _ _ hi) h

/-- Concrete instantiation of `single_statement_then_eof`: with the
trailing token `y` left after the complete statement `x = 1;`, the
parse fails with the SyntaxError of `Parser.error`. -/
theorem single_statement_then_eof_witness :
    Parser.parse 60 ⟨⟨.ID, .str "x"⟩, " = 1; y".toList⟩ = .error .synError := by
  exact single_statement_then_eof.2.2.1 60 ⟨⟨.ID, .str "x"⟩, " = 1; y".toList⟩
    (.Assign (.Variable ⟨.ID, .str "x"⟩) ⟨.ASSIGN, .str "="⟩
      (.Numeric ⟨.INTEGER, .int 1⟩) ⟨.SEMI, .str ";"⟩)
    ⟨⟨.ID, .str "y"⟩, []⟩ rfl (by simp)

/-! ## Claim C7 -/

/-- No `Binary` node anywhere in the tree carries a DIV operator, so
evaluation of the tree never reaches the floor-division branch of
`visit_Binary` (which is guarded by `op.type == DIV`). -/
def noDiv : Operation → Bool
  | .Binary l op r => (!(op.type = .DIV)) && noDiv l && noDiv r
  | .Unary _ e => noDiv e
  | .Assign l _ r _ => noDiv l && noDiv r
  | _ => true

theorem wfExpr_noDiv (e : Operation) (h : wfExpr e = true) : noDiv e = true := by
  induction e with
  | Binary l op r ihl ihr =>
      simp only [wfExpr, Bool.and_eq_true, Bool.or_eq_true,
        decide_eq_true_eq] at h
      obtain ⟨⟨hop, hl⟩, hr⟩ := h
      have hne : op.type ≠ .DIV := by
        rcases hop with (h' | h') | h' <;> simp [h']
      simp [noDiv, ihl hl, ihr hr, hne]
  | Numeric tok => simp [noDiv]
  | Unary op e ih =>
      simp only [wfExpr, Bool.and_eq_true] at h
      simp [noDiv, ih h.2]
  | Assign l op r semi ihl ihr => simp [wfExpr] at h
  | Variable tok => simp [noDiv]
  | NoOp => simp [wfExpr] at h

theorem wfStmt_noDiv (a : Operation) (h : wfStmt a = true) : noDiv a = true := by
  cases a with
  | Assign l op r semi =>
      simp only [wfStmt, Bool.and_eq_true] at h
      obtain ⟨hl, hr⟩ := h
      cases l with
      | Variable tok => simp [noDiv, wfExpr_noDiv r hr]
      | Binary l2 op2 r2 => simp at hl
      | Numeric tok => simp at hl
      | Unary op2 e2 => simp at hl
      | Assign l2 op2 r2 semi2 => simp at hl
      | NoOp => simp at hl
  | Binary l op r => simp [wfStmt] at h
  | Numeric tok => simp [wfStmt] at h
  | Unary op e => simp [wfStmt] at h
  | Variable tok => simp [wfStmt] at h
  | NoOp => simp [wfStmt] at h

theorem goodToken_ne_div (t : Token) (h : goodToken t = true) :
    t.type ≠ .DIV := by
  intro hd
  simp [goodToken, hd] at h

/-- Claim C7 (confirmed): an input character that is not whitespace,
not alphabetic, not a digit, and not one of `= ; + - * ( )` makes the
lexer raise its LexError; no token the lexer returns has kind DIV (so
`/` in particular never lexes to a Div token); and no tree the parser
produces contains a DIV binary operator, so the floor-division branch
of the evaluator is unreachable from any surface text. -/
theorem unrecognized_char_errors_and_div_unreachable :
    (∀ c cs, pyIsSpace c = false → pyIsAlpha c = false →
      pyIsDigit c = false →
      c ∉ (['=', ';', '+', '-', '*', '(', ')'] : List Char) →
      Lexer.get_next_token (c :: cs) = .error .lexError) ∧
    (∀ text tok rest, Lexer.get_next_token text = .ok (tok, rest) →
      tok.type ≠ .DIV) ∧
    (∀ f text tree, parseText f text = .ok tree → noDiv tree = true) := by
  refine ⟨?_, ?_, ?_⟩
  · intro c cs h1 h2 h3 h4
    simp only [List.mem_cons, List.mem_singleton, not_or] at h4
    obtain ⟨n1, n2, n3, n4, n5, n6, n7, -⟩ := h4
    simp [Lexer.get_next_token, List.dropWhile, h1, h2, h3,
      n1, n2, n3, n4, n5, n6, n7]
  · intro text tok rest h
    exact goodToken_ne_div tok (get_next_token_good text tok rest h)
  · intro f text tree h
    exact wfStmt_noDiv tree (parseText_wf f text tree h)

/-- Concrete instantiation of
`unrecognized_char_errors_and_div_unreachable`: the character `/` is
rejected by the lexer, and the tree parsed from `x = 3 * 4;` contains
no DIV operator. -/
theorem unrecognized_char_errors_and_div_unreachable_witness :
    Lexer.get_next_token ['/', '2'] = .error .lexError ∧
    noDiv (.Assign (.Variable ⟨.ID, .str "x"⟩) ⟨.ASSIGN, .str "="⟩
      (.Binary (.Numeric ⟨.INTEGER, .int 3⟩) ⟨.MUL, .str "*"⟩
        (.Numeric ⟨.INTEGER, .int 4⟩)) ⟨.SEMI, .str ";"⟩) = true := by
  constructor
  · exact unrecognized_char_errors_and_div_unreachable.1 '/' ['2']
      (by decide) (by decide) (by decide) (by decide)
  · exact unrecognized_char_errors_and_div_unreachable.2.2
      (fuelFor "x = 3 * 4;") "x = 3 * 4;" _ rfl

/-! ## Claim C10 -/

/-- Every value held in the store is an integer. -/
def allInt (s : Store) : Bool :=
  s.all fun kv => match kv.2 with | .int _ => true | _ => false

theorem storeGet_allInt (s : Store) (k v : PyVal)
    (hs : allInt s = true) (hg : storeGet s k = some v) :
    ∃ n, v = .int n := by
  induction s with
  | nil => simp [storeGet] at hg
  | cons kv rest ih =>
      obtain ⟨k', v'⟩ := kv
      simp only [allInt, List.all_cons, Bool.and_eq_true] at hs
      by_cases hk : k' = k
      · simp only [storeGet, if_pos hk] at hg
        cases v' with
        | int n => exact ⟨n, by rw [← Option.some.inj hg]⟩
        | none => simp at hs
        | str s2 => simp at hs
      · simp only [storeGet, if_neg hk] at hg
        exact ih (by simp [allInt, hs.2]) hg

/-- Under the all-integers invariant, the `None` sentinel test of
`visit_Variable` succeeds exactly when the name is absent. -/
theorem allInt_sentinel (s : Store) (hs : allInt s = true) (k : PyVal) :
    (dictGet s k = .none) ↔ storeGet s k = Option.none := by
  unfold dictGet
  cases hg : storeGet s k with
  | none => simp
  | some v =>
      obtain ⟨n, rfl⟩ := storeGet_allInt s k v hs hg
      simp

theorem allInt_storeSet (s : Store) (k : PyVal) (n : Int)
    (hs : allInt s = true) : allInt (storeSet s k (.int n)) = true := by
  induction s with
  | nil => simp [storeSet, allInt]
  | cons kv rest ih =>
      obtain ⟨k', v'⟩ := kv
      simp only [allInt, List.all_cons, Bool.and_eq_true] at hs
      by_cases hk : k' = k
      · simp [storeSet, hk, allInt, hs.2]
      · simp only [storeSet, if_neg hk]
        simp only [allInt, List.all_cons, Bool.and_eq_true]
        exact ⟨hs.1, by simpa [allInt] using ih (by simp [allInt, hs.2])⟩

/-- Canonical outcomes of evaluating an expression that keeps the
store and yields integers: either an exception with the store intact,
or an integer value with the store intact. -/
theorem visit_expr_cases (e : Operation) (s : Store)
    (h : (Interpreter.visit e s).2 = s ∧
      ∀ v, (Interpreter.visit e s).1 = .ok v → ∃ n, v = .int n) :
    (∃ e1, Interpreter.visit e s = (.error e1, s)) ∨
    (∃ n, Interpreter.visit e s = (.ok (.int n), s)) := by
  obtain ⟨h2, h1⟩ := h
  cases hv : Interpreter.visit e s with
  | mk r1 s1 =>
    rw [hv] at h2 h1
    have h2a : s1 = s := h2
    subst h2a
    cases r1 with
    | error e1 => exact Or.inl ⟨e1, rfl⟩
    | ok a =>
        obtain ⟨n, rfl⟩ := h1 a rfl
        exact Or.inr ⟨n, rfl⟩

/-- Evaluating a well-formed expression never changes the store, and
when it succeeds the result is an integer. -/
theorem visit_wfExpr :
    ∀ (e : Operation) (s : Store), wfExpr e = true → allInt s = true →
      (Interpreter.visit e s).2 = s ∧
      ∀ v, (Interpreter.visit e s).1 = .ok v → ∃ n, v = .int n := by
  intro e
  induction e with
  | Binary l op r ihl ihr =>
      intro s hwf hs
      simp only [wfExpr, Bool.and_eq_true, Bool.or_eq_true,
        decide_eq_true_eq] at hwf
      obtain ⟨⟨hop, hl⟩, hr⟩ := hwf
      have hcl := visit_expr_cases l s (ihl s hl hs)
      have hcr := visit_expr_cases r s (ihr s hr hs)
      rcases hop with (hX | hX) | hX <;>
        (simp only [Interpreter.visit, hX, reduceCtorEq, if_true, if_false]
         rcases hcl with ⟨e1, hvl⟩ | ⟨n1, hvl⟩
         · simp [hvl]
         · rcases hcr with ⟨e2, hvr⟩ | ⟨n2, hvr⟩
           · simp [hvl, hvr]
           · constructor
             · simp [hvl, hvr, Interpreter.pyAdd, Interpreter.pySub,
                 Interpreter.pyMul]
             · intro v hv
               simp [hvl, hvr, Interpreter.pyAdd, Interpreter.pySub,
                 Interpreter.pyMul] at hv
               first
               | exact ⟨_, hv⟩
               | exact ⟨_, hv.symm⟩)
  | Numeric tok =>
      intro s hwf hs
      simp only [wfExpr] at hwf
      cases hv : tok.value with
      | int n => simp [Interpreter.visit, hv]
      | none => simp [hv] at hwf
      | str s2 => simp [hv] at hwf
  | Unary op e ih =>
      intro s hwf hs
      simp only [wfExpr, Bool.and_eq_true, Bool.or_eq_true,
        decide_eq_true_eq] at hwf
      obtain ⟨hop, he⟩ := hwf
      have hce := visit_expr_cases e s (ih s he hs)
      rcases hop with hX | hX <;>
        (simp only [Interpreter.visit, hX, reduceCtorEq, if_true, if_false]
         rcases hce with ⟨e1, hv⟩ | ⟨n1, hv⟩
         · simp [hv]
         · constructor
           · simp [hv, Interpreter.pyPos, Interpreter.pyNeg]
           · intro v hvv
             simp [hv, Interpreter.pyPos, Interpreter.pyNeg] at hvv
             first
             | exact ⟨_, hvv⟩
             | exact ⟨_, hvv.symm⟩)
  | Assign l op r semi ihl ihr => intro s hwf hs; simp [wfExpr] at hwf
  | Variable tok =>
      intro s hwf hs
      by_cases hd : dictGet s tok.value = .none
      · simp [Interpreter.visit, hd]
      · constructor
        · simp [Interpreter.visit, hd]
        · intro v hv
          simp only [Interpreter.visit, if_neg hd] at hv
          obtain rfl : dictGet s tok.value = v := by simpa using hv
          cases hg : storeGet s tok.value with
          | none => exact absurd (by simp [dictGet, hg]) hd
          | some w =>
              obtain ⟨n, rfl⟩ := storeGet_allInt s tok.value w hs hg
              exact ⟨n, by simp [dictGet, hg]⟩
  | NoOp => intro s hwf hs; simp [wfExpr] at hwf

/-- Evaluating a well-formed assignment statement preserves the
all-integers store invariant, whether it succeeds or raises. -/
theorem visit_wfStmt (a : Operation) (s : Store) (hwf : wfStmt a = true)
    (hs : allInt s = true) : allInt ((Interpreter.visit a s).2) = true := by
  cases a with
  | Assign l op r semi =>
      simp only [wfStmt, Bool.and_eq_true] at hwf
      obtain ⟨hl, hr⟩ := hwf
      cases l with
      | Variable tok =>
          have hc := visit_expr_cases r s (visit_wfExpr r s hr hs)
          simp only [Interpreter.visit, Operation.valueAttr]
          rcases hc with ⟨e1, hv⟩ | ⟨n, hv⟩
          · simpa [hv] using hs
          · simpa [hv] using allInt_storeSet s tok.value n hs
      | Binary l2 op2 r2 => simp at hl
      | Numeric tok => simp at hl
      | Unary op2 e2 => simp at hl
      | Assign l2 op2 r2 semi2 => simp at hl
      | NoOp => simp at hl
  | Binary l op r => simp [wfStmt] at hwf
  | Numeric tok => simp [wfStmt] at hwf
  | Unary op e => simp [wfStmt] at hwf
  | Variable tok => simp [wfStmt] at hwf
  | NoOp => simp [wfStmt] at hwf

/-- One shell line preserves the all-integers store invariant. -/
theorem interpretLine_allInt (line : String) (s : Store)
    (hs : allInt s = true) : allInt ((interpretLine line s).2) = true := by
  unfold interpretLine
  cases hp : parseText (fuelFor line) line with
  | error e => simpa using hs
  | ok tree =>
      exact visit_wfStmt tree s (parseText_wf (fuelFor line) line tree hp) hs

/-- The whole session preserves the all-integers store invariant. -/
theorem mainLoop_allInt :
    ∀ (lines : List String) (s : Store), allInt s = true →
      allInt ((mainLoop lines s).1) = true := by
  intro lines
  induction lines with
  | nil => intro s hs; simpa [mainLoop] using hs
  | cons line rest ih =>
      intro s hs
      by_cases hl : line = ""
      · simpa [mainLoop, hl] using ih s hs
      · have hline := interpretLine_allInt line s hs
        simp only [mainLoop, if_neg hl]
        cases hi : interpretLine line s with
        | mk r s' =>
          rw [hi] at hline
          cases r with
          | ok v => simpa using ih s' hline
          | error e => simpa using hline

/-- Claim C10 (confirmed): starting from the empty store, after any
sequence of input lines every value held in the store is an integer
(never Python `None`), so the `None`-sentinel test of `visit_Variable`
succeeds exactly when the looked-up name is absent from the store. -/
theorem store_values_always_integers (lines : List String) :
    allInt ((mainLoop lines []).1) = true ∧
    ∀ k, (dictGet (mainLoop lines []).1 k = .none ↔
      storeGet (mainLoop lines []).1 k = Option.none) := by
  have h := mainLoop_allInt lines [] rfl
  exact ⟨h, allInt_sentinel _ h⟩

/-- Concrete instantiation of `store_values_always_integers`: after
the session `x = 11;` / `y = x + 1;` the invariant holds and the
sentinel test answers absence for `z` and presence for `x`. -/
theorem store_values_always_integers_witness :
    allInt ((mainLoop ["x = 11;", "y = x + 1;"] []).1) = true ∧
    (dictGet (mainLoop ["x = 11;", "y = x + 1;"] []).1 (.str "z") = .none ↔
      storeGet (mainLoop ["x = 11;", "y = x + 1;"] []).1 (.str "z")
        = Option.none) := by
  have h := store_values_always_integers ["x = 11;", "y = x + 1;"]
  exact ⟨h.1, h.2 (.str "z")⟩

end Assignment
